import Mathlib

/-!
Shallow embedding of the doctoelementor core (heading classification,
document walking, column distribution, table extraction) together with
proofs about the embedded definitions.

Conventions used throughout:
* Python strings are modelled by `String` (operated on through their
  character lists); `str.strip()`, `str.split()`, `str.isupper()`,
  `in` (substring) and the two regexes of the source are modelled by
  executable character-list functions below.  Character classes
  (`\d`, `\s`, case conversion) are modelled over their ASCII parts.
* Python floats are modelled by `ℚ`; every constant of the source is a
  decimal that `ℚ` represents exactly, and every settled statement is
  robust to this choice (no statement depends on a sum hitting a
  decision threshold exactly).
* Python dicts/objects are modelled by structures; the document object
  of `python-docx` is abstracted to the fields the walker reads
  (body nodes, per-paragraph text/style/image relationship ids, and the
  relationship pool).
-/

namespace DocToElementor

/-! ## Basic Python string modelling -/

/-- The whitespace characters of Python's default `str.strip` /
`str.split` / `\s` (ASCII part). -/
def pySpace (c : Char) : Bool :=
  c = ' ' || c = '\t' || c = '\n' || c = '\r' || c = Char.ofNat 11 || c = Char.ofNat 12

/-- `str.strip()` on a character list. -/
def stripList (cs : List Char) : List Char :=
  ((cs.dropWhile pySpace).reverse.dropWhile pySpace).reverse

/-- `text.strip()`. -/
def pyStrip (s : String) : String :=
  String.mk (stripList s.data)

/-- Substring occurrence, `needle in hay` for Python strings. -/
def containsList (needle : List Char) : List Char → Bool
  | [] => needle.isEmpty
  | c :: t => needle.isPrefixOf (c :: t) || containsList needle t

/-- `needle in hay` for Python strings. -/
def strContains (hay needle : String) : Bool :=
  containsList needle.data hay.data

/-- ASCII lower-casing of one character (model of `str.lower` /
`re.IGNORECASE` folding on the ASCII letters the source compares). -/
def lowerChar (c : Char) : Char :=
  if 'A' ≤ c ∧ c ≤ 'Z' then Char.ofNat (c.toNat + 32) else c

/-- `text.lower()`. -/
def pyLower (s : String) : String :=
  String.mk (s.data.map lowerChar)

/-- `text.endswith(cs)` for a tuple of single-character strings:
true iff the text is nonempty and its last character is one of `cs`. -/
def endsWithAny (s : String) (cs : List Char) : Bool :=
  match s.data.getLast? with
  | some c => cs.contains c
  | none => false

/-- `text.isupper()` (ASCII model): at least one letter, and every
letter is upper case. -/
def pyIsUpper (s : String) : Bool :=
  s.data.any (fun c => c.isAlpha) && s.data.all (fun c => !c.isAlpha || c.isUpper)

/-- `text[0].isupper()` on a nonempty text (false on the empty text). -/
def headIsUpper (s : String) : Bool :=
  match s.data with
  | [] => false
  | c :: _ => c.isUpper

/-- Word splitter underlying `text.split()` (split on whitespace runs,
no empty words); only the number of words is consumed by the model. -/
def wsSplitAux : List Char → List Char → List (List Char)
  | [], acc => if acc = [] then [] else [acc]
  | c :: t, acc =>
    if pySpace c then
      (if acc = [] then wsSplitAux t [] else acc :: wsSplitAux t [])
    else wsSplitAux t (acc ++ [c])

/-- `text.split()`. -/
def pyWords (s : String) : List (List Char) :=
  wsSplitAux s.data []

/-! ## The regular expressions of the source

`NUMBERED_PATTERN = ^(\d+(\.\d+)*)\s+` is deterministic: after the
maximal run of digits and maximal sequence of `.` + digits groups the
next character is either whitespace (match) or not (no match; giving
groups back only re-exposes a `.` or a digit, never whitespace, so
backtracking cannot succeed where the greedy parse failed).  The model
returns the number of dots of the matched prefix. -/

/-- Consume `(\.\d+)*` greedily, counting the groups (= dots).  The
fuel argument only serves termination; each step consumes at least two
characters, so `fuel = input length` is never exhausted. -/
def dotGroups : Nat → List Char → Nat × List Char
  | 0, cs => (0, cs)
  | fuel + 1, cs =>
    match cs with
    | '.' :: c :: rest =>
      if c.isDigit then
        let step := dotGroups fuel (rest.dropWhile Char.isDigit)
        (step.1 + 1, step.2)
      else (0, cs)
    | _ => (0, cs)

/-- `NUMBERED_PATTERN.match text`: `some k` iff the text matches
`^\d+(\.\d+)*\s+`, where `k` is the number of dots in the matched
prefix (`group(0)`). -/
def numberedDots (s : String) : Option Nat :=
  match s.data with
  | [] => none
  | c :: rest =>
    if c.isDigit then
      let r1 := rest.dropWhile Char.isDigit
      let g := dotGroups r1.length r1
      match g.2 with
      | c2 :: _ => if pySpace c2 then some g.1 else none
      | [] => none
    else none

/-- Case-insensitive literal prefix match; returns the remaining text
when the keyword is a prefix. -/
def ciStarts : List Char → List Char → Option (List Char)
  | [], rest => some rest
  | _ :: _, [] => none
  | k :: ks, c :: cs => if lowerChar c = lowerChar k then ciStarts ks cs else none

/-- One character of `[IVX\d]` under `re.IGNORECASE`. -/
def romanOrDigit (c : Char) : Bool :=
  c.isDigit || lowerChar c = 'i' || lowerChar c = 'v' || lowerChar c = 'x'

/-- After an alternative of the chapter pattern matched: `\s+[IVX\d]+`
(at least one whitespace, then at least one roman/digit character). -/
def chapterTail (rest : List Char) : Bool :=
  match rest with
  | [] => false
  | c :: t =>
    pySpace c &&
      (match (c :: t).dropWhile pySpace with
       | c2 :: _ => romanOrDigit c2
       | [] => false)

/-- `CHAPTER_PATTERN.match text` for
`^(CHAP|Chapitre|Chapter)\s+[IVX\d]+` with `re.IGNORECASE`: each
alternative is a deterministic literal, so the whole pattern matches
iff one alternative followed by `\s+[IVX\d]+` does. -/
def chapterMatch (s : String) : Bool :=
  (match ciStarts "CHAP".data s.data with
   | some rest => chapterTail rest
   | none => false) ||
  (match ciStarts "Chapitre".data s.data with
   | some rest => chapterTail rest
   | none => false) ||
  (match ciStarts "Chapter".data s.data with
   | some rest => chapterTail rest
   | none => false)

/-! ## Column distributor (json_builder.distribute_elements) -/

/-- One element of the structure list as the distributor sees it: the
`type` tag (`"h1"`..`"h6"`, `"p"`, `"image"`, `"table"`) plus an opaque
payload standing for the remaining dict fields. -/
structure Element where
  type : String
  content : String
deriving DecidableEq, Repr

/-- Accumulator of CPython's `min(range n, key=...)`: a later value
replaces the current best only when strictly smaller, so the first
minimum wins ties. -/
def pyMinIdxAux : List Nat → Nat → Nat → Nat → Nat
  | [], best, _, _ => best
  | v :: rest, best, bestV, i =>
    if v < bestV then pyMinIdxAux rest i v (i + 1)
    else pyMinIdxAux rest best bestV (i + 1)

/-- `min(range(len L), key=fun i => L[i])`. -/
def pyMinIdx : List Nat → Nat
  | [] => 0
  | v :: rest => pyMinIdxAux rest 0 v 1

/-- `cols[i].append e`. -/
def appendAt (cols : List (List Element)) (i : Nat) (e : Element) : List (List Element) :=
  cols.set i (cols.getD i [] ++ [e])

/-- One step of the `auto` strategy loop: h1/h2 to the main column 0,
everything else to the currently shortest column. -/
def autoStep (cols : List (List Element)) (e : Element) : List (List Element) :=
  if e.type = "h1" ∨ e.type = "h2" then
    appendAt cols 0 e
  else
    appendAt cols (pyMinIdx (cols.map List.length)) e

/-- The `balanced` strategy loop: element at enumeration index `idx`
is appended to column `idx % n`. -/
def balancedAux : List Element → Nat → Nat → List (List Element) → List (List Element)
  | [], _, _, cols => cols
  | e :: rest, idx, n, cols => balancedAux rest (idx + 1) n (appendAt cols (idx % n) e)

/-- The `sequential` strategy: column `col` receives
`len // n + (1 if col < len % n else 0)` consecutive elements; the
remainder counter decreases by one per column while positive. -/
def seqChunks (els : List Element) (epc rem : Nat) : Nat → List (List Element)
  | 0 => []
  | k + 1 =>
    let count := epc + (if 0 < rem then 1 else 0)
    els.take count :: seqChunks (els.drop count) epc (rem - 1) k

/-- `json_builder.distribute_elements`.  Note the source's `elif`
chain: a strategy outside the three known names leaves the freshly
created empty columns untouched. -/
def distribute_elements (elements : List Element) (num_columns : Nat)
    (strategy : String) : List (List Element) :=
  if num_columns = 1 then [elements]
  else if strategy = "auto" then
    elements.foldl autoStep (List.replicate num_columns [])
  else if strategy = "sequential" then
    seqChunks elements (elements.length / num_columns)
      (elements.length % num_columns) num_columns
  else if strategy = "balanced" then
    balancedAux elements 0 num_columns (List.replicate num_columns [])
  else
    List.replicate num_columns []

/-! ## Properties of the distributor -/

/-- `IsLeastMin L m`: `m` is the first index at which `L` attains its
minimum (every earlier entry is strictly larger). -/
def IsLeastMin (L : List Nat) (m : Nat) : Prop :=
  m < L.length ∧ (∀ j, j < L.length → L.getD m 0 ≤ L.getD j 0) ∧
    ∀ j, j < m → L.getD m 0 < L.getD j 0

lemma drop_cons_facts {L : List Nat} {i v : Nat} {rest : List Nat}
    (h : L.drop i = v :: rest) :
    i < L.length ∧ L.getD i 0 = v ∧ L.drop (i + 1) = rest := by
  have hlt : i < L.length := by
    by_contra hle
    rw [List.drop_eq_nil_of_le (by omega)] at h
    exact List.noConfusion h
  refine ⟨hlt, ?_, ?_⟩
  · have h0 : L[i]? = some v := by
      have hd := List.getElem?_drop L i 0
      rw [h] at hd
      simpa using hd.symm
    simp [List.getD_eq_getElem?_getD, h0]
  · have hd := List.drop_drop 1 i L
    rw [h] at hd
    simpa [Nat.add_comm] using hd.symm

lemma pyMinIdxAux_least (L : List Nat) :
    ∀ (lens : List Nat) (i best bestV : Nat),
      L.drop i = lens → best < i → i ≤ L.length → L.getD best 0 = bestV →
      (∀ j, j < i → bestV ≤ L.getD j 0) →
      (∀ j, j < best → bestV < L.getD j 0) →
      IsLeastMin L (pyMinIdxAux lens best bestV i)
  | [], i, best, bestV, hdrop, hbi, hil, hbv, hmin, hstrict => by
    have hlen : L.length ≤ i := by
      by_contra hlt
      have hne : L.drop i ≠ [] := by
        have : 0 < (L.drop i).length := by rw [List.length_drop]; omega
        exact List.ne_nil_of_length_pos this
      exact hne hdrop
    have hi : i = L.length := by omega
    subst hi
    show IsLeastMin L best
    exact ⟨by omega, fun j hj => hbv ▸ hmin j hj, fun j hj => hbv ▸ hstrict j hj⟩
  | v :: rest, i, best, bestV, hdrop, hbi, hil, hbv, hmin, hstrict => by
    obtain ⟨hlt, hgv, hdrop'⟩ := drop_cons_facts hdrop
    show IsLeastMin L (if v < bestV then pyMinIdxAux rest i v (i + 1)
      else pyMinIdxAux rest best bestV (i + 1))
    split
    · rename_i hvb
      refine pyMinIdxAux_least L rest (i + 1) i v hdrop' (by omega) (by omega) hgv ?_ ?_
      · intro j hj
        rcases Nat.lt_or_ge j i with hji | hji
        · exact le_of_lt (lt_of_lt_of_le hvb (hmin j hji))
        · have : j = i := by omega
          subst this; rw [hgv]
      · intro j hj
        exact lt_of_lt_of_le hvb (hmin j hj)
    · rename_i hvb
      refine pyMinIdxAux_least L rest (i + 1) best bestV hdrop' (by omega) (by omega) hbv ?_ hstrict
      intro j hj
      rcases Nat.lt_or_ge j i with hji | hji
      · exact hmin j hji
      · have : j = i := by omega
        subst this; rw [hgv]; omega

lemma pyMinIdx_least (L : List Nat) (h : L ≠ []) : IsLeastMin L (pyMinIdx L) := by
  match L, h with
  | v :: rest, _ =>
    refine pyMinIdxAux_least (v :: rest) rest 1 0 v rfl (by omega) (by simp) rfl ?_ ?_
    · intro j hj
      have : j = 0 := by omega
      subst this; simp
    · intro j hj; omega

lemma pyMinIdx_lt (L : List Nat) (h : L ≠ []) : pyMinIdx L < L.length :=
  (pyMinIdx_least L h).1

lemma length_appendAt (cols : List (List Element)) (i : Nat) (e : Element) :
    (appendAt cols i e).length = cols.length := by
  simp [appendAt]

lemma flatten_appendAt : ∀ (cols : List (List Element)) (i : Nat) (e : Element),
    i < cols.length → List.Perm ((appendAt cols i e).flatten) (cols.flatten ++ [e])
  | [], i, e, h => by simp at h
  | c :: rest, 0, e, _ => by
    simp only [appendAt, List.getD_cons_zero, List.set_cons_zero, List.flatten_cons,
      List.append_assoc]
    exact List.Perm.append_left c List.perm_append_comm
  | c :: rest, i + 1, e, h => by
    have ih := flatten_appendAt rest i e (by simpa using h)
    simp only [appendAt] at ih
    simp only [appendAt, List.getD_cons_succ, List.set_cons_succ, List.flatten_cons,
      List.append_assoc]
    exact ih.append_left c

lemma length_foldl_autoStep : ∀ (els : List Element) (cols : List (List Element)),
    (els.foldl autoStep cols).length = cols.length
  | [], cols => rfl
  | e :: rest, cols => by
    rw [List.foldl_cons, length_foldl_autoStep rest]
    unfold autoStep
    split <;> simp [length_appendAt]

lemma flatten_foldl_autoStep : ∀ (els : List Element) (cols : List (List Element)),
    cols ≠ [] → List.Perm ((els.foldl autoStep cols).flatten) (cols.flatten ++ els)
  | [], cols, _ => by simp
  | e :: rest, cols, h => by
    have hne : autoStep cols e ≠ [] := by
      have hl : (autoStep cols e).length = cols.length := by
        unfold autoStep; split <;> simp [length_appendAt]
      intro hc
      rw [hc] at hl
      exact h (List.eq_nil_of_length_eq_zero hl.symm)
    have ih := flatten_foldl_autoStep rest (autoStep cols e) hne
    have hstep : List.Perm ((autoStep cols e).flatten) (cols.flatten ++ [e]) := by
      unfold autoStep
      split
      · refine flatten_appendAt cols 0 e ?_
        cases cols with
        | nil => exact absurd rfl h
        | cons c r => simp
      · refine flatten_appendAt cols (pyMinIdx (cols.map List.length)) e ?_
        have hm : (cols.map List.length) ≠ [] := by
          simpa using h
        simpa using pyMinIdx_lt _ hm
    rw [List.foldl_cons]
    refine ih.trans ?_
    have heq : (cols.flatten ++ [e]) ++ rest = cols.flatten ++ (e :: rest) := by simp
    exact heq ▸ hstep.append_right rest

lemma length_balancedAux : ∀ (els : List Element) (idx n : Nat)
    (cols : List (List Element)),
    (balancedAux els idx n cols).length = cols.length
  | [], _, _, cols => rfl
  | e :: rest, idx, n, cols => by
    rw [balancedAux, length_balancedAux rest, length_appendAt]

lemma flatten_balancedAux : ∀ (els : List Element) (idx n : Nat)
    (cols : List (List Element)), cols.length = n → 0 < n →
    List.Perm ((balancedAux els idx n cols).flatten) (cols.flatten ++ els)
  | [], _, _, cols, _, _ => by simp [balancedAux]
  | e :: rest, idx, n, cols, hlen, hn => by
    have hlt : idx % n < cols.length := by
      rw [hlen]; exact Nat.mod_lt _ hn
    have ih := flatten_balancedAux rest (idx + 1) n (appendAt cols (idx % n) e)
      (by rw [length_appendAt, hlen]) hn
    rw [balancedAux]
    refine ih.trans ?_
    have hstep := flatten_appendAt cols (idx % n) e hlt
    have heq : (cols.flatten ++ [e]) ++ rest = cols.flatten ++ (e :: rest) := by simp
    exact heq ▸ hstep.append_right rest

lemma length_seqChunks : ∀ (k : Nat) (els : List Element) (epc rem : Nat),
    (seqChunks els epc rem k).length = k
  | 0, _, _, _ => rfl
  | k + 1, els, epc, rem => by
    simp only [seqChunks, List.length_cons, length_seqChunks k]

lemma flatten_seqChunks : ∀ (k : Nat) (els : List Element) (epc rem : Nat),
    (seqChunks els epc rem k).flatten = els.take (k * epc + min rem k)
  | 0, els, epc, rem => by simp [seqChunks]
  | k + 1, els, epc, rem => by
    simp only [seqChunks, List.flatten_cons, flatten_seqChunks k]
    rw [← List.take_add]
    congr 1
    have hmin : min rem (k + 1) = (if 0 < rem then 1 else 0) + min (rem - 1) k := by
      rcases Nat.eq_zero_or_pos rem with h | h <;> simp [h] <;> omega
    rw [Nat.succ_mul, hmin]
    ring

lemma flatten_replicate_nil : ∀ n : Nat, (List.replicate n ([] : List Element)).flatten = []
  | 0 => rfl
  | n + 1 => by simp [List.replicate_succ, flatten_replicate_nil n]

lemma replicate_nil_ne_nil {n : Nat} (h : 0 < n) :
    List.replicate n ([] : List Element) ≠ [] := by
  intro hc
  have := congrArg List.length hc
  simp at this
  omega

/-- C1: for the three documented strategies and 1–3 columns,
`distribute_elements` returns exactly `num_columns` columns whose
column-by-column concatenation is a permutation of the input (no
element dropped, none duplicated). -/
theorem c1_distribute_partition (elements : List Element) (num_columns : Nat)
    (strategy : String)
    (hn : num_columns = 1 ∨ num_columns = 2 ∨ num_columns = 3)
    (hs : strategy = "auto" ∨ strategy = "sequential" ∨ strategy = "balanced") :
    (distribute_elements elements num_columns strategy).length = num_columns ∧
      List.Perm ((distribute_elements elements num_columns strategy).flatten) elements := by
  have hpos : 0 < num_columns := by rcases hn with h | h | h <;> omega
  by_cases h1 : num_columns = 1
  · subst h1
    simp [distribute_elements]
  · rcases hs with h | h | h <;> subst h
    · rw [distribute_elements, if_neg h1, if_pos rfl]
      constructor
      · rw [length_foldl_autoStep]; simp
      · have hp := flatten_foldl_autoStep elements (List.replicate num_columns [])
          (replicate_nil_ne_nil hpos)
        rwa [flatten_replicate_nil, List.nil_append] at hp
    · rw [distribute_elements, if_neg h1, if_neg (by decide), if_pos rfl]
      constructor
      · exact length_seqChunks _ _ _ _
      · rw [flatten_seqChunks]
        have hmod : elements.length % num_columns < num_columns :=
          Nat.mod_lt _ hpos
        have harith : num_columns * (elements.length / num_columns) +
            min (elements.length % num_columns) num_columns = elements.length := by
          rw [min_eq_left (le_of_lt hmod)]
          exact Nat.div_add_mod _ _
        rw [harith, List.take_length]
    · rw [distribute_elements, if_neg h1, if_neg (by decide), if_neg (by decide),
        if_pos rfl]
      constructor
      · rw [length_balancedAux]; simp
      · have hp := flatten_balancedAux elements 0 num_columns
          (List.replicate num_columns []) (by simp) hpos
        rwa [flatten_replicate_nil, List.nil_append] at hp

/-- C1 witness at a concrete input. -/
theorem c1_distribute_partition_witness :
    (distribute_elements [⟨"h1", "a"⟩, ⟨"p", "b"⟩, ⟨"p", "c"⟩] 2 "balanced").length = 2 ∧
      List.Perm ((distribute_elements [⟨"h1", "a"⟩, ⟨"p", "b"⟩, ⟨"p", "c"⟩] 2
        "balanced").flatten) [⟨"h1", "a"⟩, ⟨"p", "b"⟩, ⟨"p", "c"⟩] :=
  c1_distribute_partition _ 2 "balanced" (Or.inr (Or.inl rfl)) (Or.inr (Or.inr rfl))

/-- C2 counterexample: an unknown strategy does NOT behave like `auto`
(the `elif` chain of the source leaves the freshly created columns
empty, dropping every element). -/
theorem c2_counterexample :
    distribute_elements [⟨"p", "x"⟩] 2 "bogus" ≠
        distribute_elements [⟨"p", "x"⟩] 2 "auto" ∧
      distribute_elements [⟨"p", "x"⟩] 2 "bogus" = [[], []] := by
  constructor
  · decide
  · decide

/-- C2 amended: with more than one column, a strategy string outside
`{auto, sequential, balanced}` returns `num_columns` empty columns —
every element is silently dropped. -/
theorem c2_unknown_strategy_drops (elements : List Element) (num_columns : Nat)
    (strategy : String) (hn : 1 < num_columns)
    (ha : strategy ≠ "auto") (hseq : strategy ≠ "sequential")
    (hb : strategy ≠ "balanced") :
    distribute_elements elements num_columns strategy =
      List.replicate num_columns [] := by
  rw [distribute_elements, if_neg (by omega), if_neg ha, if_neg hseq, if_neg hb]

/-- C2 amended witness. -/
theorem c2_unknown_strategy_drops_witness :
    distribute_elements [⟨"p", "x"⟩] 3 "weird" = List.replicate 3 [] :=
  c2_unknown_strategy_drops [⟨"p", "x"⟩] 3 "weird" (by omega) (by decide) (by decide)
    (by decide)

lemma mem_getD0_appendAt {cols : List (List Element)} {x : Element} (j : Nat)
    (e : Element) (h : x ∈ cols.getD 0 []) : x ∈ (appendAt cols j e).getD 0 [] := by
  cases cols with
  | nil => simp at h
  | cons c rest =>
    cases j with
    | zero =>
      simp only [appendAt, List.getD_cons_zero, List.set_cons_zero]
      exact List.mem_append_left _ h
    | succ j =>
      simpa only [appendAt, List.getD_cons_succ, List.set_cons_succ,
        List.getD_cons_zero] using h

lemma mem_col0_foldl : ∀ (els : List Element) (cols : List (List Element))
    (x : Element), x ∈ cols.getD 0 [] → x ∈ (els.foldl autoStep cols).getD 0 []
  | [], cols, x, h => h
  | e :: rest, cols, x, h => by
    rw [List.foldl_cons]
    refine mem_col0_foldl rest _ x ?_
    unfold autoStep
    split
    · exact mem_getD0_appendAt 0 e h
    · exact mem_getD0_appendAt _ e h

lemma mem_col0_of_heading : ∀ (els : List Element) (cols : List (List Element))
    (e : Element), e ∈ els → (e.type = "h1" ∨ e.type = "h2") → cols ≠ [] →
    e ∈ (els.foldl autoStep cols).getD 0 []
  | e' :: rest, cols, e, hmem, hty, hne => by
    have hlen : ∀ f : Element, (autoStep cols f).length = cols.length := by
      intro f; unfold autoStep; split <;> simp [length_appendAt]
    rcases List.mem_cons.mp hmem with rfl | hmem'
    · rw [List.foldl_cons]
      refine mem_col0_foldl rest _ e ?_
      unfold autoStep
      rw [if_pos hty]
      cases cols with
      | nil => exact absurd rfl hne
      | cons c r =>
        simp [appendAt]
    · rw [List.foldl_cons]
      refine mem_col0_of_heading rest (autoStep cols e') e hmem' hty ?_
      intro hc
      have := hlen e'
      rw [hc] at this
      exact hne (List.eq_nil_of_length_eq_zero this.symm)

/-- C8: under the `auto` strategy with 2 or 3 columns, every step of
the distribution appends an h1/h2 element to column 0 and any other
element to the first column of currently minimal size
(`IsLeastMin`), and consequently every h1/h2 element of the input is a
member of column 0 of the output. -/
theorem c8_auto_strategy (els : List Element) (n : Nat) (hn : n = 2 ∨ n = 3) :
    (∀ (cols : List (List Element)) (e : Element), cols ≠ [] →
        ((e.type = "h1" ∨ e.type = "h2") → autoStep cols e = appendAt cols 0 e) ∧
        (¬(e.type = "h1" ∨ e.type = "h2") →
          ∃ m, IsLeastMin (cols.map List.length) m ∧
            autoStep cols e = appendAt cols m e)) ∧
      ∀ e ∈ els, (e.type = "h1" ∨ e.type = "h2") →
        e ∈ (distribute_elements els n "auto").getD 0 [] := by
  constructor
  · intro cols e hne
    constructor
    · intro hty
      unfold autoStep
      rw [if_pos hty]
    · intro hty
      refine ⟨pyMinIdx (cols.map List.length), pyMinIdx_least _ (by simpa using hne), ?_⟩
      unfold autoStep
      rw [if_neg hty]
  · intro e hmem hty
    have h1 : n ≠ 1 := by rcases hn with h | h <;> omega
    have hpos : 0 < n := by rcases hn with h | h <;> omega
    rw [distribute_elements, if_neg h1, if_pos rfl]
    exact mem_col0_of_heading els _ e hmem hty (replicate_nil_ne_nil hpos)

/-- C8 witness at a concrete input. -/
theorem c8_auto_strategy_witness :
    (⟨"h1", "t"⟩ : Element) ∈
      (distribute_elements [⟨"p", "a"⟩, ⟨"h1", "t"⟩] 2 "auto").getD 0 [] :=
  (c8_auto_strategy [⟨"p", "a"⟩, ⟨"h1", "t"⟩] 2 (Or.inl rfl)).2 ⟨"h1", "t"⟩
    (by simp) (Or.inl rfl)

/-! ## Heading classifier (heading_detector.HeadingDetector.detect_heading_level)

In the source, each scoring criterion updates `score` additively and
optionally sets `detected_level` when it is still unset (criterion 2
overwrites it unconditionally); the two update chains never read each
other, so the function is rendered as one candidate-level chain and
one additive score, both in source criterion order. -/

/-- `"h" + str n`, the `f'h{...}'` of the source. -/
def hName (n : Nat) : String := "h" ++ toString n

/-- The keyword list of the detector (the apostrophe of the last entry
is written `\x27`). -/
def SECTION_KEYWORDS : List String :=
  ["introduction", "conclusion", "contexte", "définition",
   "exemple", "comparaison", "analyse", "synthèse", "résumé",
   "pourquoi", "comment", "quoi", "qu\x27est-ce"]

/-- Criterion 5: `any(keyword in text_lower for keyword in SECTION_KEYWORDS)`. -/
def hasKeyword (text : String) : Bool :=
  SECTION_KEYWORDS.any (fun k => strContains (pyLower text) k)

/-- `if not detected_level: detected_level = d` — the conditional
candidate-level assignment of criteria 3, 7 and 8. -/
def orElseH (lvl : Option String) (d : String) : Option String :=
  if lvl.isNone then some d else lvl

/-- The candidate level after criteria 1–2 (numeric prefix sets
`h{min(dots+1, 6)}`; the chapter pattern overwrites with `h1`). -/
def levelAfterChapter (numbered : Option Nat) (chapter : Bool) : Option String :=
  let level0 := numbered.map (fun d => hName (min (d + 1) 6))
  if chapter then some "h1" else level0

/-- Criterion 3 candidate-level update (length tiers on the thresholds
`MAX_H1_LENGTH = 100`, `MAX_H2_LENGTH = 80`). -/
def levelAfterLength (lvl : Option String) (tl : Nat) : Option String :=
  if tl ≤ 100 then (if tl ≤ 50 then orElseH lvl "h2" else lvl)
  else if tl ≤ 80 then orElseH lvl "h3"
  else lvl

/-- Criterion 7 candidate-level update (all upper case and short). -/
def levelAfterUpper (lvl : Option String) (isUp : Bool) (tl : Nat) : Option String :=
  if isUp = true ∧ tl < 80 then orElseH lvl "h2" else lvl

/-- Criterion 8 candidate-level update (question format). -/
def levelAfterQuestion (lvl : Option String) (endsQ : Bool) : Option String :=
  if endsQ = true then orElseH lvl "h3" else lvl

/-- The candidate level after all criteria, in source order. -/
def detectLevelOf (text : String) : Option String :=
  levelAfterQuestion
    (levelAfterUpper
      (levelAfterLength (levelAfterChapter (numberedDots text) (chapterMatch text))
        text.length)
      (pyIsUpper text) text.length)
    (endsWithAny text ['?'])

/-- Criterion 3 score contribution (length tiers, thresholds
`{100, 80, 120}` tested top-down exactly as in the source's
`if`/`elif` chain). -/
def scoreLength (tl : Nat) : ℚ :=
  if tl ≤ 100 then (if tl ≤ 50 then 0.3 else 0.2)
  else if tl ≤ 80 then 0.15
  else if tl ≤ 120 then 0.05 else 0

/-- The additive confidence score, one summand per criterion in source
order (1: numeric prefix 0.9, 2: chapter 0.8, 3: length tiers,
4: terminal punctuation −0.3 / none +0.2, 5: section keyword 0.15,
6: initial capital 0.1, 7: all-caps short 0.4, 8: question 0.15). -/
def detectScoreOf (text : String) : ℚ :=
  (if (numberedDots text).isSome then 0.9 else 0) +
  (if chapterMatch text then 0.8 else 0) +
  scoreLength text.length +
  (if endsWithAny text ['.', '!', '?', ';', ','] then (-0.3) else 0.2) +
  (if hasKeyword text then 0.15 else 0) +
  (if headIsUpper text then 0.1 else 0) +
  (if pyIsUpper text = true ∧ text.length < 80 then 0.4 else 0) +
  (if endsWithAny text ['?'] then 0.15 else 0)

/-- `HeadingDetector.detect_heading_level`: strip, score, decide.
The `prev_text` parameter of the source is unused by its body and is
omitted. -/
def detect_heading_level (text0 : String) : String × ℚ :=
  let text := pyStrip text0
  if text = "" then ("p", 0)
  else
    let confidence := min (detectScoreOf text) 1
    match numberedDots text, detectLevelOf text with
    | some _, some l => (l, max confidence 0.5)
    | _, _ =>
      if 0.35 < confidence then ((detectLevelOf text).getD "h3", confidence)
      else ("p", confidence)

/-! ### The detector with the dead length branch deleted (for C10)

In the source, `elif text_length <= MAX_H2_LENGTH` (80) is only
reached when `text_length <= MAX_H1_LENGTH` (100) already failed, so
its condition can never hold; the following definitions are the
detector with that branch removed. -/

/-- `levelAfterLength` with the unreachable `≤ 80` branch deleted. -/
def levelAfterLengthPruned (lvl : Option String) (tl : Nat) : Option String :=
  if tl ≤ 100 then (if tl ≤ 50 then orElseH lvl "h2" else lvl)
  else lvl

/-- `scoreLength` with the unreachable `≤ 80` branch deleted. -/
def scoreLengthPruned (tl : Nat) : ℚ :=
  if tl ≤ 100 then (if tl ≤ 50 then 0.3 else 0.2)
  else if tl ≤ 120 then 0.05 else 0

/-- `detectLevelOf` with the pruned length criterion. -/
def detectLevelOfPruned (text : String) : Option String :=
  levelAfterQuestion
    (levelAfterUpper
      (levelAfterLengthPruned
        (levelAfterChapter (numberedDots text) (chapterMatch text)) text.length)
      (pyIsUpper text) text.length)
    (endsWithAny text ['?'])

/-- `detectScoreOf` with the pruned length criterion. -/
def detectScoreOfPruned (text : String) : ℚ :=
  (if (numberedDots text).isSome then 0.9 else 0) +
  (if chapterMatch text then 0.8 else 0) +
  scoreLengthPruned text.length +
  (if endsWithAny text ['.', '!', '?', ';', ','] then (-0.3) else 0.2) +
  (if hasKeyword text then 0.15 else 0) +
  (if headIsUpper text then 0.1 else 0) +
  (if pyIsUpper text = true ∧ text.length < 80 then 0.4 else 0) +
  (if endsWithAny text ['?'] then 0.15 else 0)

/-- `detect_heading_level` with the pruned length criterion. -/
def detect_heading_level_pruned (text0 : String) : String × ℚ :=
  let text := pyStrip text0
  if text = "" then ("p", 0)
  else
    let confidence := min (detectScoreOfPruned text) 1
    match numberedDots text, detectLevelOfPruned text with
    | some _, some l => (l, max confidence 0.5)
    | _, _ =>
      if 0.35 < confidence then ((detectLevelOfPruned text).getD "h3", confidence)
      else ("p", confidence)

/-! ## Walker-side heading heuristic (word_processor.detect_heading_level)

Modelled exactly from the source; `text[0].isupper()` is rendered by
`headIsUpper`, which is false on the empty text (Python would raise an
`IndexError` there; the walker only calls this function on non-empty
stripped text). -/

def wp_detect_heading_level (text0 : String) (style_name : String) : String :=
  let text := pyStrip text0
  if strContains style_name "Heading 1" = true ∨ strContains style_name "Title" = true
    then "h1"
  else if strContains style_name "Heading 2" = true then "h2"
  else if strContains style_name "Heading 3" = true then "h3"
  else if strContains style_name "Heading 4" = true then "h4"
  else if strContains style_name "Heading 5" = true then "h5"
  else if strContains style_name "Heading 6" = true then "h6"
  else
    match numberedDots text with
    | some d => hName (min (d + 1) 6)
    | none =>
      if text.length < 100 ∧ endsWithAny text ['.', '!', '?', ';', ':'] = false then
        (if pyIsUpper text = true then "h2"
         else if (pyWords text).length ≤ 12 ∧ headIsUpper text = true then "h3"
         else "p")
      else "p"

/-! ## Properties of the classifiers -/

lemma lowerChar_digit {c : Char} (h : c.isDigit = true) : lowerChar c = c ∧ c ≠ 'c' := by
  simp only [Char.isDigit, Bool.and_eq_true, decide_eq_true_eq] at h
  obtain ⟨h1, h2⟩ := h
  have hv1 : 48 ≤ c.val.toNat := by exact_mod_cast h1
  have hv2 : c.val.toNat ≤ 57 := by exact_mod_cast h2
  constructor
  · unfold lowerChar
    rw [if_neg]
    intro hc
    have h65 : (65 : Nat) ≤ c.val.toNat := by exact_mod_cast hc.1
    omega
  · intro hc
    subst hc
    simp [UInt32.size] at hv2

lemma numberedDots_head {s : String} {d : Nat} (h : numberedDots s = some d) :
    ∃ c rest, s.data = c :: rest ∧ c.isDigit = true := by
  unfold numberedDots at h
  split at h
  · exact absurd h (by simp)
  · rename_i c rest hs
    split at h
    · rename_i hd
      exact ⟨c, rest, hs, hd⟩
    · exact absurd h (by simp)

lemma chapterMatch_of_digit {s : String} {c : Char} {rest : List Char}
    (hs : s.data = c :: rest) (hd : c.isDigit = true) : chapterMatch s = false := by
  obtain ⟨hlc, hne⟩ := lowerChar_digit hd
  have hCnames : ∀ ks, ciStarts ('C' :: ks) s.data = none := by
    intro ks
    rw [hs]
    show (if lowerChar c = lowerChar 'C' then ciStarts ks rest else none) = none
    rw [if_neg]
    rw [hlc]
    intro hcc
    exact hne (by simpa using hcc)
  have h1 : "CHAP".data = 'C' :: "HAP".data := rfl
  have h2 : "Chapitre".data = 'C' :: "hapitre".data := rfl
  have h3 : "Chapter".data = 'C' :: "hapter".data := rfl
  unfold chapterMatch
  rw [h1, h2, h3, hCnames, hCnames, hCnames]
  rfl

lemma numberedDots_ne_empty {d : Nat} (h : numberedDots "" = some d) : False := by
  simpa [numberedDots] using h

lemma orElseH_some (l d : String) : orElseH (some l) d = some l := rfl

lemma levelAfterChapter_of_numbered {d : Nat} (chapter : Bool)
    (hch : chapter = false) :
    levelAfterChapter (some d) chapter = some (hName (min (d + 1) 6)) := by
  subst hch
  rfl

lemma levelAfterLength_some (l : String) (tl : Nat) :
    levelAfterLength (some l) tl = some l := by
  unfold levelAfterLength
  split
  · split <;> rfl
  · split <;> rfl

lemma levelAfterUpper_some (l : String) (isUp : Bool) (tl : Nat) :
    levelAfterUpper (some l) isUp tl = some l := by
  unfold levelAfterUpper
  split <;> rfl

lemma levelAfterQuestion_some (l : String) (endsQ : Bool) :
    levelAfterQuestion (some l) endsQ = some l := by
  unfold levelAfterQuestion
  split <;> rfl

lemma detectLevelOf_of_numbered {s : String} {d : Nat}
    (h : numberedDots s = some d) :
    detectLevelOf s = some (hName (min (d + 1) 6)) := by
  obtain ⟨c, rest, hs, hd⟩ := numberedDots_head h
  have hch := chapterMatch_of_digit hs hd
  unfold detectLevelOf
  rw [h, levelAfterChapter_of_numbered _ hch, levelAfterLength_some,
    levelAfterUpper_some, levelAfterQuestion_some]

/-- Core fact behind C3: a numeric prefix forces the numeric level and
lifts the confidence to at least 0.5. -/
lemma detect_of_numbered {t : String} {d : Nat}
    (h : numberedDots (pyStrip t) = some d) :
    detect_heading_level t =
      (hName (min (d + 1) 6), max (min (detectScoreOf (pyStrip t)) 1) 0.5) := by
  have hne : pyStrip t ≠ "" := by
    intro hc
    rw [hc] at h
    exact numberedDots_ne_empty h
  unfold detect_heading_level
  rw [if_neg hne, h, detectLevelOf_of_numbered h]

/-- C3: for any text whose stripped form matches `^\d+(\.\d+)*\s+`
with `k` dots, the detector returns `h{min(k+1, 6)}` with confidence
at least 0.5, whatever the other signals contribute. -/
theorem c3_numeric_wins (t : String) (d : Nat)
    (h : numberedDots (pyStrip t) = some d) :
    (detect_heading_level t).1 = hName (min (d + 1) 6) ∧
      (0.5 : ℚ) ≤ (detect_heading_level t).2 := by
  rw [detect_of_numbered h]
  exact ⟨rfl, le_max_right _ _⟩

/-- C3 witness at a concrete input. -/
theorem c3_numeric_wins_witness :
    numberedDots (pyStrip "2.1 Titre") = some 1 ∧
      ((detect_heading_level "2.1 Titre").1 = hName (min (1 + 1) 6) ∧
        (0.5 : ℚ) ≤ (detect_heading_level "2.1 Titre").2) :=
  ⟨rfl, c3_numeric_wins "2.1 Titre" 1 rfl⟩

/-! ### Range and kind of the classifier output (C4) -/

/-- The six heading kinds the candidate level can hold. -/
def headingKinds : List String := ["h1", "h2", "h3", "h4", "h5", "h6"]

lemma hName_mem_headingKinds (d : Nat) : hName (min (d + 1) 6) ∈ headingKinds := by
  have h1 : 1 ≤ min (d + 1) 6 := le_min (by omega) (by omega)
  have h2 : min (d + 1) 6 ≤ 6 := min_le_right _ _
  set m := min (d + 1) 6 with hm
  interval_cases m <;> decide

lemma orElseH_mem {lvl : Option String} {dflt l : String}
    (hd : dflt ∈ headingKinds) (hl : ∀ x, lvl = some x → x ∈ headingKinds)
    (h : orElseH lvl dflt = some l) : l ∈ headingKinds := by
  unfold orElseH at h
  split at h
  · cases h; exact hd
  · exact hl l h

lemma levelAfterChapter_mem {numbered : Option Nat} {chapter : Bool} {x : String}
    (h : levelAfterChapter numbered chapter = some x) : x ∈ headingKinds := by
  unfold levelAfterChapter at h
  split at h
  · cases h; decide
  · cases numbered with
    | none => exact absurd h (by simp)
    | some d =>
      simp only [Option.map_some'] at h
      cases h
      exact hName_mem_headingKinds d

lemma levelAfterLength_mem {lvl : Option String} {tl : Nat} {x : String}
    (hl : ∀ y, lvl = some y → y ∈ headingKinds)
    (h : levelAfterLength lvl tl = some x) : x ∈ headingKinds := by
  unfold levelAfterLength at h
  split at h
  · split at h
    · exact orElseH_mem (by decide) hl h
    · exact hl x h
  · split at h
    · exact orElseH_mem (by decide) hl h
    · exact hl x h

lemma levelAfterUpper_mem {lvl : Option String} {isUp : Bool} {tl : Nat} {x : String}
    (hl : ∀ y, lvl = some y → y ∈ headingKinds)
    (h : levelAfterUpper lvl isUp tl = some x) : x ∈ headingKinds := by
  unfold levelAfterUpper at h
  split at h
  · exact orElseH_mem (by decide) hl h
  · exact hl x h

lemma levelAfterQuestion_mem {lvl : Option String} {endsQ : Bool} {x : String}
    (hl : ∀ y, lvl = some y → y ∈ headingKinds)
    (h : levelAfterQuestion lvl endsQ = some x) : x ∈ headingKinds := by
  unfold levelAfterQuestion at h
  split at h
  · exact orElseH_mem (by decide) hl h
  · exact hl x h

lemma detectLevelOf_mem {t : String} {l : String}
    (h : detectLevelOf t = some l) : l ∈ headingKinds := by
  unfold detectLevelOf at h
  refine levelAfterQuestion_mem (fun y hy => ?_) h
  refine levelAfterUpper_mem (fun z hz => ?_) hy
  refine levelAfterLength_mem (fun w hw => ?_) hz
  exact levelAfterChapter_mem hw

lemma scoreLength_nonneg (tl : Nat) : (0 : ℚ) ≤ scoreLength tl := by
  unfold scoreLength
  split_ifs <;> norm_num

/-- The only negative criterion is the −0.3 terminal-punctuation
penalty, so the raw score is bounded below by −0.3. -/
lemma detectScoreOf_lower (t : String) : -(0.3 : ℚ) ≤ detectScoreOf t := by
  unfold detectScoreOf
  have h3 := scoreLength_nonneg t.length
  have h1 : (0:ℚ) ≤ (if (numberedDots t).isSome then (0.9:ℚ) else 0) := by
    split <;> norm_num
  have h2 : (0:ℚ) ≤ (if chapterMatch t then (0.8:ℚ) else 0) := by
    split <;> norm_num
  have h4 : -(0.3:ℚ) ≤
      (if endsWithAny t ['.', '!', '?', ';', ','] then (-0.3:ℚ) else 0.2) := by
    split <;> norm_num
  have h5 : (0:ℚ) ≤ (if hasKeyword t then (0.15:ℚ) else 0) := by
    split <;> norm_num
  have h6 : (0:ℚ) ≤ (if headIsUpper t then (0.1:ℚ) else 0) := by
    split <;> norm_num
  have h7 : (0:ℚ) ≤ (if pyIsUpper t = true ∧ t.length < 80 then (0.4:ℚ) else 0) := by
    split <;> norm_num
  have h8 : (0:ℚ) ≤ (if endsWithAny t ['?'] then (0.15:ℚ) else 0) := by
    split <;> norm_num
  linarith

lemma mem_kinds_or_p {l : String} (h : l ∈ headingKinds) :
    l ∈ ["h1", "h2", "h3", "h4", "h5", "h6", "p"] := by
  simp only [headingKinds, List.mem_cons, List.not_mem_nil, or_false] at h
  simp only [List.mem_cons, List.not_mem_nil, or_false]
  tauto

lemma decision_branch_ok {lvl : Option String} {conf : ℚ}
    (hmem : ∀ x, lvl = some x → x ∈ headingKinds)
    (hc2 : -(0.3 : ℚ) ≤ conf) (hc1 : conf ≤ 1) :
    (if 0.35 < conf then ((lvl.getD "h3", conf) : String × ℚ)
      else ("p", conf)).1 ∈ ["h1", "h2", "h3", "h4", "h5", "h6", "p"] ∧
    -(0.3 : ℚ) ≤ (if 0.35 < conf then ((lvl.getD "h3", conf) : String × ℚ)
      else ("p", conf)).2 ∧
    (if 0.35 < conf then ((lvl.getD "h3", conf) : String × ℚ)
      else ("p", conf)).2 ≤ 1 := by
  split
  · refine ⟨?_, hc2, hc1⟩
    cases hl : lvl with
    | none => simp
    | some l => simpa using mem_kinds_or_p (hmem l hl)
  · exact ⟨by simp, hc2, hc1⟩

/-- C4 amended: the returned kind is one of h1–h6/p, and the returned
confidence lies in `[−0.3, 1]` (it is clamped above by 1 but NOT
clamped below by 0: the terminal-punctuation penalty can push it to
−0.3). -/
theorem c4_kind_and_range (t : String) :
    (detect_heading_level t).1 ∈ ["h1", "h2", "h3", "h4", "h5", "h6", "p"] ∧
      -(0.3 : ℚ) ≤ (detect_heading_level t).2 ∧ (detect_heading_level t).2 ≤ 1 := by
  unfold detect_heading_level
  by_cases h0 : pyStrip t = ""
  · rw [if_pos h0]
    refine ⟨by simp, by norm_num, by norm_num⟩
  · rw [if_neg h0]
    have hc1 : min (detectScoreOf (pyStrip t)) 1 ≤ 1 := min_le_right _ _
    have hc2 : -(0.3 : ℚ) ≤ min (detectScoreOf (pyStrip t)) 1 :=
      le_min (detectScoreOf_lower _) (by norm_num)
    generalize hg : min (detectScoreOf (pyStrip t)) 1 = conf at hc1 hc2 ⊢
    rcases hnum : numberedDots (pyStrip t) with _ | d <;>
      rcases hlvl : detectLevelOf (pyStrip t) with _ | l <;>
      simp only [hnum, hlvl]
    · exact decision_branch_ok (fun x hx => by cases hx) hc2 hc1
    · exact decision_branch_ok
        (fun x hx => by cases hx; exact detectLevelOf_mem hlvl) hc2 hc1
    · exact decision_branch_ok (fun x hx => by cases hx) hc2 hc1
    · refine ⟨mem_kinds_or_p (detectLevelOf_mem hlvl), ?_, ?_⟩
      · exact le_trans (by norm_num) (le_max_right _ _)
      · exact max_le hc1 (by norm_num)

/-- C4 counterexample input: 51 `a`s followed by a period (length 52:
+0.2 from the length tier, −0.3 from the terminal period, nothing
else), giving confidence −0.1. -/
def c4Input : String := String.mk (List.replicate 51 'a' ++ ['.'])

/-- C4 counterexample: the confidence returned for `c4Input` is
negative, so it does not lie in `[0, 1]`. -/
theorem c4_counterexample :
    (detect_heading_level c4Input).2 < 0 ∧
      ¬(0 ≤ (detect_heading_level c4Input).2 ∧ (detect_heading_level c4Input).2 ≤ 1) := by
  have hstrip : pyStrip c4Input = c4Input := by decide
  have hne : c4Input ≠ "" := by decide
  have hnum : numberedDots c4Input = none := by decide
  have hch : chapterMatch c4Input = false := by decide
  have hlen : c4Input.length = 52 := by decide
  have hpunct : endsWithAny c4Input ['.', '!', '?', ';', ','] = true := by decide
  have hkw : hasKeyword c4Input = false := by decide
  have hhead : headIsUpper c4Input = false := by decide
  have hup : pyIsUpper c4Input = false := by decide
  have hq : endsWithAny c4Input ['?'] = false := by decide
  have hlvl : detectLevelOf c4Input = none := by decide
  have hscore : detectScoreOf c4Input = -(0.1 : ℚ) := by
    unfold detectScoreOf
    rw [hnum, hch, hpunct, hkw, hhead, hup, hq, hlen]
    norm_num [scoreLength]
  have hmin : min (-(0.1 : ℚ)) 1 = -(0.1 : ℚ) := min_eq_left (by norm_num)
  have hval : detect_heading_level c4Input = ("p", -(0.1 : ℚ)) := by
    unfold detect_heading_level
    rw [hstrip, if_neg hne, hscore, hnum, hlvl, hmin]
    simp only
    rw [if_neg (by norm_num)]
  rw [hval]
  norm_num

/-! ### Dead length branch (C10) -/

lemma levelAfterLength_eq_pruned (lvl : Option String) (tl : Nat) :
    levelAfterLength lvl tl = levelAfterLengthPruned lvl tl := by
  unfold levelAfterLength levelAfterLengthPruned
  by_cases h : tl ≤ 100
  · simp [h]
  · have h80 : ¬tl ≤ 80 := by omega
    simp [h, h80]

lemma scoreLength_eq_pruned (tl : Nat) : scoreLength tl = scoreLengthPruned tl := by
  unfold scoreLength scoreLengthPruned
  by_cases h : tl ≤ 100
  · simp [h]
  · have h80 : ¬tl ≤ 80 := by omega
    simp [h, h80]

lemma detectLevelOf_eq_pruned (t : String) :
    detectLevelOf t = detectLevelOfPruned t := by
  unfold detectLevelOf detectLevelOfPruned
  rw [levelAfterLength_eq_pruned]

lemma detectScoreOf_eq_pruned (t : String) :
    detectScoreOf t = detectScoreOfPruned t := by
  unfold detectScoreOf detectScoreOfPruned
  rw [scoreLength_eq_pruned]

/-- C10: the `elif text_length <= MAX_H2_LENGTH` tier (+0.15, h3
candidate) is dead code — it is only tested when the length exceeds
100, so deleting it never changes the classifier's output. -/
theorem c10_dead_length_branch (t : String) :
    detect_heading_level t = detect_heading_level_pruned t := by
  unfold detect_heading_level detect_heading_level_pruned
  simp only [detectScoreOf_eq_pruned, detectLevelOf_eq_pruned]

/-! ### Walker heuristic vs classifier (C5) -/

/-- C5 counterexample: on the plain short word `"hello"` with the
style name `"Normal"` (which carries no Heading/Title marker), the
walker's heuristic returns `p` while the Classifier returns `h2` —
the two classification functions are not the same function. -/
theorem c5_counterexample :
    strContains "Normal" "Heading 1" = false ∧
      strContains "Normal" "Title" = false ∧
      wp_detect_heading_level "hello" "Normal" = "p" ∧
      (detect_heading_level "hello").1 = "h2" ∧
      wp_detect_heading_level "hello" "Normal" ≠ (detect_heading_level "hello").1 := by
  have hdetect : (detect_heading_level "hello").1 = "h2" := by
    have hstrip : pyStrip "hello" = "hello" := by decide
    have hne : ("hello" : String) ≠ "" := by decide
    have hnum : numberedDots "hello" = none := by decide
    have hch : chapterMatch "hello" = false := by decide
    have hlen : ("hello" : String).length = 5 := by decide
    have hpunct : endsWithAny "hello" ['.', '!', '?', ';', ','] = false := by decide
    have hkw : hasKeyword "hello" = false := by decide
    have hhead : headIsUpper "hello" = false := by decide
    have hup : pyIsUpper "hello" = false := by decide
    have hq : endsWithAny "hello" ['?'] = false := by decide
    have hlvl : detectLevelOf "hello" = some "h2" := by decide
    have hscore : detectScoreOf "hello" = (0.5 : ℚ) := by
      unfold detectScoreOf
      rw [hnum, hch, hpunct, hkw, hhead, hup, hq, hlen]
      norm_num [scoreLength]
    have hmin : min (0.5 : ℚ) 1 = (0.5 : ℚ) := min_eq_left (by norm_num)
    unfold detect_heading_level
    rw [hstrip, if_neg hne, hscore, hnum, hlvl, hmin]
    simp only
    rw [if_pos (by norm_num : (0.35 : ℚ) < 0.5)]
    rfl
  refine ⟨by decide, by decide, by decide, hdetect, ?_⟩
  rw [hdetect]
  decide

/-- C5 amended: the walker classifies with its own heuristic
(`word_processor.detect_heading_level`), which does not agree with the
Classifier on all style-free paragraphs; the two do agree whenever the
trimmed text carries a hierarchical numeric prefix (both then return
`h{min(dots+1, 6)}`). -/
theorem c5_walker_agrees_on_numbered (text style : String) (d : Nat)
    (hs1 : strContains style "Heading 1" = false)
    (hsT : strContains style "Title" = false)
    (hs2 : strContains style "Heading 2" = false)
    (hs3 : strContains style "Heading 3" = false)
    (hs4 : strContains style "Heading 4" = false)
    (hs5 : strContains style "Heading 5" = false)
    (hs6 : strContains style "Heading 6" = false)
    (hnum : numberedDots (pyStrip text) = some d) :
    wp_detect_heading_level text style = (detect_heading_level text).1 := by
  rw [detect_of_numbered hnum]
  simp [wp_detect_heading_level, hs1, hsT, hs2, hs3, hs4, hs5, hs6, hnum]

/-- C5 amended witness. -/
theorem c5_walker_agrees_on_numbered_witness :
    wp_detect_heading_level "2.1 Foo" "Normal" = (detect_heading_level "2.1 Foo").1 :=
  c5_walker_agrees_on_numbered "2.1 Foo" "Normal" 1 (by decide) (by decide) (by decide)
    (by decide) (by decide) (by decide) (by decide) rfl

/-! ## Table extraction (word_processor.extract_table_data) -/

/-- The dict returned by `extract_table_data`. -/
structure TableData where
  rows : List (List String)
  num_rows : Nat
  num_cols : Nat
  has_header : Bool
deriving DecidableEq, Repr

/-- Average stripped cell-text length of one row
(`sum(len(cell) for cell in row) / len(row) if row else 0`). -/
def rowAvg (row : List String) : ℚ :=
  if row ≠ [] then
    (row.map (fun cell => (cell.length : ℚ))).sum / (row.length : ℚ)
  else 0

/-- `word_processor.extract_table_data`, taking the grid of raw cell
texts the source reads out of the `docx` table object. -/
def extract_table_data (tableRows : List (List String)) : TableData :=
  let rows_data := tableRows.map (fun row => row.map pyStrip)
  let has_header :=
    if 1 < rows_data.length then
      let first_row_avg := rowAvg (rows_data.getD 0 [])
      let second_row_avg := rowAvg (rows_data.getD 1 [])
      decide (0 < first_row_avg ∧ first_row_avg < second_row_avg * 1.5)
    else false
  { rows := rows_data,
    num_rows := rows_data.length,
    num_cols := (rows_data.getD 0 []).length,
    has_header := has_header }

/-! ## Document walker (word_processor.extract_document_structure)

The `python-docx` document object is abstracted to the data the walker
reads: an ordered list of body nodes (tables carrying their cell-text
grid, paragraphs carrying their text, optional style name, and the
result of the source's XML search for an embedded picture), plus the
relationship table.  A paragraph's `embedRel`/`linkRel` are the
relationship ids the source's `r:embed="`/`r:link="` substring search
finds (in that order, `none` when the pattern is absent or yields an
empty id), and are only consulted when the `.//pic:pic` xpath test
(`hasPic`) succeeded.  A relationship entry's `decodes` abstracts
whether `PIL.Image.open` succeeds on its payload. -/

structure ParaNode where
  text : String
  styleName : Option String
  hasPic : Bool
  embedRel : Option String
  linkRel : Option String
deriving DecidableEq, Repr

inductive BodyNode where
  | tbl (rows : List (List String))
  | par (p : ParaNode)
deriving DecidableEq, Repr

structure RelEntry where
  relId : String
  targetRef : String
  decodes : Bool
  fmt : Option String
  width : Nat
  height : Nat
deriving DecidableEq, Repr

structure DocModel where
  body : List BodyNode
  rels : List RelEntry
deriving DecidableEq, Repr

/-- The per-image record the walker stores in `image_data`
(binary payload omitted). -/
structure ImageRecord where
  fmt : String
  width : Nat
  height : Nat
  position : Nat
deriving DecidableEq, Repr

/-- One entry of the walker's output structure list. -/
inductive StructElem where
  | table (data : TableData)
  | image (refId : String)
  | text (type content style : String)
deriving DecidableEq, Repr

/-- `f"__IMAGE_{image_counter}__"`. -/
def imgRefId (n : Nat) : String := "__IMAGE_" ++ toString n ++ "__"

/-- The initial relationship pool: relationships whose `target_ref`
contains `"image"`. -/
def initPool (doc : DocModel) : List RelEntry :=
  doc.rels.filter (fun r => strContains r.targetRef "image")

/-- `rel_id in image_rels` / `image_rels[rel_id]` (ids are unique in a
Python dict; the pool keeps the first binding). -/
def lookupRel (pool : List RelEntry) (rid : String) : Option RelEntry :=
  pool.find? (fun r => r.relId == rid)

/-- `del image_rels[rel_id]`. -/
def removeRel (pool : List RelEntry) (rid : String) : List RelEntry :=
  pool.eraseP (fun r => r.relId == rid)

/-- The candidate relationship ids of one paragraph, in the source's
pattern order (`r:embed` before `r:link`), guarded by the
`.//pic:pic` test. -/
def paraCandidates (p : ParaNode) : List String :=
  if p.hasPic then p.embedRel.toList ++ p.linkRel.toList else []

/-- The image-extraction loop of the walker: the first candidate that
is present in the pool AND decodes wins (a decode failure is caught
and the next pattern is tried; a candidate missing from the pool is
skipped). -/
def findImage : List RelEntry → List String → Option (RelEntry × List RelEntry)
  | _, [] => none
  | pool, rid :: rest =>
    match lookupRel pool rid with
    | some r =>
      if r.decodes then some (r, removeRel pool rid) else findImage pool rest
    | none => findImage pool rest

/-- The walker's loop state. -/
structure WalkState where
  structList : List StructElem
  image_data : List (String × ImageRecord)
  counter : Nat
  pool : List RelEntry
deriving DecidableEq, Repr

/-- One body-node step of the walker's traversal. -/
def walkNode (st : WalkState) (node : BodyNode) : WalkState :=
  match node with
  | .tbl rows =>
    { st with structList := st.structList ++ [.table (extract_table_data rows)] }
  | .par p =>
    match findImage st.pool (paraCandidates p) with
    | some (r, pool') =>
      let rid := imgRefId st.counter
      { structList := st.structList ++ [.image rid],
        image_data := st.image_data ++
          [(rid, { fmt := r.fmt.getD "PNG", width := r.width, height := r.height,
                   position := st.structList.length })],
        counter := st.counter + 1,
        pool := pool' }
    | none =>
      let t := pyStrip p.text
      if t = "" then st
      else
        let style := p.styleName.getD "Normal"
        { st with structList :=
            st.structList ++ [.text (wp_detect_heading_level t style) t style] }

/-- The walker's initial state (`structure = []`, `image_data = {}`,
`image_counter = 1`, pool = image relationships). -/
def initState (doc : DocModel) : WalkState :=
  ⟨[], [], 1, initPool doc⟩

/-- `word_processor.extract_document_structure`: traverse the body in
order, then raise `ValueError("Document vide")` iff the structure list
is empty. -/
def extract_document_structure (doc : DocModel) :
    Except String (List StructElem × List (String × ImageRecord)) :=
  let st := doc.body.foldl walkNode (initState doc)
  if st.structList = [] then .error "Document vide"
  else .ok (st.structList, st.image_data)

/-! ### Table header detection (C7) -/

/-- C7: with at least two rows, `has_header` is true iff the average
stripped cell length of row 0 is strictly positive and strictly below
1.5 times that of row 1; with fewer than two rows it is false. -/
theorem c7_table_header (tableRows : List (List String)) :
    (2 ≤ tableRows.length →
      ((extract_table_data tableRows).has_header = true ↔
        (0 < rowAvg ((tableRows.map (fun row => row.map pyStrip)).getD 0 []) ∧
          rowAvg ((tableRows.map (fun row => row.map pyStrip)).getD 0 []) <
            rowAvg ((tableRows.map (fun row => row.map pyStrip)).getD 1 []) * 1.5))) ∧
    (tableRows.length < 2 → (extract_table_data tableRows).has_header = false) := by
  constructor
  · intro h2
    simp only [extract_table_data]
    rw [if_pos (by simpa using (by omega : 1 < tableRows.length))]
    exact decide_eq_true_iff
  · intro h2
    simp only [extract_table_data]
    rw [if_neg (by simp; omega)]

/-- C7 witness: the spec's example table. -/
theorem c7_table_header_witness :
    2 ≤ ([["Name", "Age"],
          ["A very long descriptive cell text here", "30"]] : List (List String)).length ∧
      (extract_table_data
        [["Name", "Age"], ["A very long descriptive cell text here", "30"]]).has_header
        = true := by
  refine ⟨by decide, ?_⟩
  have h := (c7_table_header
    [["Name", "Age"], ["A very long descriptive cell text here", "30"]]).1 (by decide)
  rw [h]
  have hr0 : (([["Name", "Age"],
      ["A very long descriptive cell text here", "30"]].map
        (fun row => row.map pyStrip)).getD 0 []) = ["Name", "Age"] := by decide
  have hr1 : (([["Name", "Age"],
      ["A very long descriptive cell text here", "30"]].map
        (fun row => row.map pyStrip)).getD 1 [])
      = ["A very long descriptive cell text here", "30"] := by decide
  have hl0 : ("Name" : String).length = 4 := by decide
  have hl1 : ("Age" : String).length = 3 := by decide
  have hl2 : ("A very long descriptive cell text here" : String).length = 38 := by decide
  have hl3 : ("30" : String).length = 2 := by decide
  have ha0 : rowAvg ["Name", "Age"] = 7 / 2 := by
    unfold rowAvg
    rw [if_pos (by decide : (["Name", "Age"] : List String) ≠ [])]
    norm_num [hl0, hl1]
  have ha1 : rowAvg ["A very long descriptive cell text here", "30"] = 20 := by
    unfold rowAvg
    rw [if_pos
      (by decide : (["A very long descriptive cell text here", "30"] : List String) ≠ [])]
    norm_num [hl2, hl3]
  rw [hr0, hr1, ha0, ha1]
  constructor
  · norm_num
  · norm_num

/-! ### Image refIds (C6) -/

/-- The refIds of the `ImageRef` elements of a structure list, in
order. -/
def imageRefIds (s : List StructElem) : List String :=
  s.filterMap (fun e => match e with | .image r => some r | _ => none)

lemma imageRefIds_append (s t : List StructElem) :
    imageRefIds (s ++ t) = imageRefIds s ++ imageRefIds t := by
  simp [imageRefIds, List.filterMap_append]

lemma refIds_invariant : ∀ (nodes : List BodyNode) (st : WalkState),
    1 ≤ st.counter →
    imageRefIds st.structList =
      (List.range (st.counter - 1)).map (fun i => imgRefId (i + 1)) →
    1 ≤ (nodes.foldl walkNode st).counter ∧
      imageRefIds (nodes.foldl walkNode st).structList =
        (List.range ((nodes.foldl walkNode st).counter - 1)).map
          (fun i => imgRefId (i + 1))
  | [], st, h1, h2 => ⟨h1, h2⟩
  | node :: rest, st, h1, h2 => by
    rw [List.foldl_cons]
    cases node with
    | tbl rows =>
      refine refIds_invariant rest _ h1 ?_
      simp only [walkNode, imageRefIds_append]
      rw [h2]
      simp [imageRefIds]
    | par p =>
      cases hf : findImage st.pool (paraCandidates p) with
      | some pr =>
        refine refIds_invariant rest _ (by simp [walkNode, hf]) ?_
        simp only [walkNode, hf, imageRefIds_append]
        rw [h2]
        have hc : st.counter + 1 - 1 = (st.counter - 1) + 1 := by omega
        rw [hc, List.range_succ, List.map_append]
        have hcc : st.counter - 1 + 1 = st.counter := by omega
        simp [imageRefIds, hcc]
      | none =>
        by_cases ht : pyStrip p.text = ""
        · have hw : walkNode st (.par p) = st := by
            simp [walkNode, hf, ht]
          rw [hw]
          exact refIds_invariant rest st h1 h2
        · refine refIds_invariant rest _ (by simp [walkNode, hf, ht]; omega) ?_
          simp only [walkNode, hf]
          rw [if_neg ht]
          simp only [imageRefIds_append]
          rw [h2]
          simp [imageRefIds]

/-- C6 amended: the refIds the walker assigns to successfully
extracted images are exactly `__IMAGE_1__`, `__IMAGE_2__`, … in
extraction order — the format is `__IMAGE_<n>__` (not `IMAGE_<n>`),
with n starting at 1 and strictly increasing. -/
theorem c6_refid_format (doc : DocModel) (s : List StructElem)
    (d : List (String × ImageRecord))
    (h : extract_document_structure doc = .ok (s, d)) :
    ∃ k, imageRefIds s = (List.range k).map (fun i => imgRefId (i + 1)) := by
  obtain ⟨h1, h2⟩ := refIds_invariant doc.body (initState doc) (by simp [initState])
    (by simp [initState, imageRefIds])
  simp only [extract_document_structure] at h
  split at h
  · exact Except.noConfusion h
  · cases h
    exact ⟨_, h2⟩

/-- The document of the C6 example: two text paragraphs, then a
paragraph whose only content is an embedded, decodable image. -/
def c6Doc : DocModel :=
  { body := [ .par ⟨"Introduction", some "Heading 1", false, none, none⟩,
              .par ⟨"Lorem ipsum.", some "Normal", false, none, none⟩,
              .par ⟨"", none, true, some "rId5", none⟩ ],
    rels := [⟨"rId5", "media/image1.png", true, some "PNG", 10, 20⟩] }

/-- C6 witness: the walker on `c6Doc` yields exactly one image refId,
`__IMAGE_1__`. -/
theorem c6_refid_format_witness :
    ∃ k, imageRefIds
        [StructElem.text "h1" "Introduction" "Heading 1",
         StructElem.text "p" "Lorem ipsum." "Normal",
         StructElem.image "__IMAGE_1__"]
      = (List.range k).map (fun i => imgRefId (i + 1)) :=
  c6_refid_format c6Doc
    [StructElem.text "h1" "Introduction" "Heading 1",
     StructElem.text "p" "Lorem ipsum." "Normal",
     StructElem.image "__IMAGE_1__"]
    [("__IMAGE_1__", { fmt := "PNG", width := 10, height := 20, position := 2 })]
    rfl

/-- C6 counterexample: the refId of the image that is the third block
of `c6Doc` is the string `__IMAGE_1__`, not `IMAGE_1` as the claim
states (the source formats it as `f"__IMAGE_{n}__"`). -/
theorem c6_counterexample :
    extract_document_structure c6Doc =
        .ok ([StructElem.text "h1" "Introduction" "Heading 1",
              StructElem.text "p" "Lorem ipsum." "Normal",
              StructElem.image "__IMAGE_1__"],
             [("__IMAGE_1__",
               { fmt := "PNG", width := 10, height := 20, position := 2 })]) ∧
      ("__IMAGE_1__" : String) ≠ "IMAGE_1" := by
  exact ⟨rfl, by decide⟩

/-! ### Empty-document error (C9) -/

/-- One body node that contributes no structure element, relative to a
relationship pool: only a paragraph with no successful image
extraction and empty stripped text (tables always contribute). -/
def emitsNothingB (pool : List RelEntry) : BodyNode → Bool
  | .tbl _ => false
  | .par p => (findImage pool (paraCandidates p)).isNone && (pyStrip p.text == "")

lemma walkNode_structList_append (st : WalkState) (node : BodyNode) :
    ∃ t, (walkNode st node).structList = st.structList ++ t := by
  cases node with
  | tbl rows => exact ⟨_, rfl⟩
  | par p =>
    cases hf : findImage st.pool (paraCandidates p) with
    | some pr => simp [walkNode, hf]
    | none =>
      by_cases ht : pyStrip p.text = ""
      · exact ⟨[], by simp [walkNode, hf, ht]⟩
      · exact ⟨[.text (wp_detect_heading_level (pyStrip p.text) (p.styleName.getD "Normal"))
            (pyStrip p.text) (p.styleName.getD "Normal")], by simp [walkNode, hf, ht]⟩

lemma foldl_structList_append : ∀ (nodes : List BodyNode) (st : WalkState),
    ∃ t, (nodes.foldl walkNode st).structList = st.structList ++ t
  | [], st => ⟨[], by simp⟩
  | node :: rest, st => by
    obtain ⟨t1, ht1⟩ := walkNode_structList_append st node
    obtain ⟨t2, ht2⟩ := foldl_structList_append rest (walkNode st node)
    exact ⟨t1 ++ t2, by rw [List.foldl_cons, ht2, ht1, List.append_assoc]⟩

lemma empty_iff : ∀ (nodes : List BodyNode) (st : WalkState),
    st.structList = [] →
    ((nodes.foldl walkNode st).structList = [] ↔
      ∀ n ∈ nodes, emitsNothingB st.pool n = true)
  | [], st, h => by simp [h]
  | node :: rest, st, h => by
    rw [List.foldl_cons]
    cases node with
    | tbl rows =>
      constructor
      · intro hc
        exfalso
        obtain ⟨t, htl⟩ := foldl_structList_append rest (walkNode st (.tbl rows))
        rw [htl] at hc
        simp [walkNode, h] at hc
      · intro hall
        have := hall (.tbl rows) (by simp)
        simp [emitsNothingB] at this
    | par p =>
      cases hf : findImage st.pool (paraCandidates p) with
      | some pr =>
        constructor
        · intro hc
          exfalso
          obtain ⟨t, htl⟩ := foldl_structList_append rest (walkNode st (.par p))
          rw [htl] at hc
          simp [walkNode, hf, h] at hc
        · intro hall
          have := hall (.par p) (by simp)
          simp [emitsNothingB, hf] at this
      | none =>
        by_cases ht : pyStrip p.text = ""
        · have hw : walkNode st (.par p) = st := by
            simp [walkNode, hf, ht]
          rw [hw, empty_iff rest st h]
          constructor
          · intro hall n hn
            rcases List.mem_cons.mp hn with rfl | hn'
            · simp [emitsNothingB, hf, ht]
            · exact hall n hn'
          · intro hall n hn
            exact hall n (List.mem_cons_of_mem _ hn)
        · constructor
          · intro hc
            exfalso
            obtain ⟨t, htl⟩ := foldl_structList_append rest (walkNode st (.par p))
            rw [htl] at hc
            simp [walkNode, hf, ht, h] at hc
          · intro hall
            have := hall (.par p) (by simp)
            simp [emitsNothingB, hf, ht] at this

/-- C9: `extract_document_structure` raises the empty-document error
exactly when the traversal contributes no structure element (every
body node is a paragraph with no successful image extraction and empty
stripped text); as soon as one node contributes, the (structure,
image_data) pair is returned normally and is non-empty. -/
theorem c9_empty_document (doc : DocModel) :
    (extract_document_structure doc = .error "Document vide" ↔
      ∀ n ∈ doc.body, emitsNothingB (initPool doc) n = true) ∧
    ((∃ n ∈ doc.body, emitsNothingB (initPool doc) n = false) →
      ∃ s d, extract_document_structure doc = .ok (s, d) ∧ s ≠ []) := by
  have hiff := empty_iff doc.body (initState doc) rfl
  have hpool : (initState doc).pool = initPool doc := rfl
  rw [hpool] at hiff
  constructor
  · constructor
    · intro he
      apply hiff.mp
      by_contra hne
      simp only [extract_document_structure] at he
      rw [if_neg hne] at he
      exact Except.noConfusion he
    · intro hall
      have hnil := hiff.mpr hall
      simp only [extract_document_structure]
      rw [if_pos hnil]
  · rintro ⟨n, hn, hfalse⟩
    have hne : ¬(doc.body.foldl walkNode (initState doc)).structList = [] := by
      intro hnil
      have := hiff.mp hnil n hn
      rw [this] at hfalse
      exact Bool.noConfusion hfalse
    refine ⟨(doc.body.foldl walkNode (initState doc)).structList,
      (doc.body.foldl walkNode (initState doc)).image_data, ?_, hne⟩
    simp only [extract_document_structure]
    rw [if_neg hne]

/-- C9 witness: a document with one non-empty paragraph returns a
non-empty structure list. -/
theorem c9_empty_document_witness :
    ∃ s d, extract_document_structure
        ⟨[.par ⟨"Hello", none, false, none, none⟩], []⟩ = .ok (s, d) ∧ s ≠ [] :=
  (c9_empty_document ⟨[.par ⟨"Hello", none, false, none, none⟩], []⟩).2
    ⟨.par ⟨"Hello", none, false, none, none⟩, by simp, by decide⟩

end DocToElementor
